import Mathlib

/-!
Verification of the day-planning and execution-tracking engine of the
AI_Executive_Assistant repository, against its specification.

Times are modelled as integer minutes; an interval `⟨lo, hi⟩` denotes the
half-open span `[lo, hi)`.  Services whose implementation is present in the
repository (TasksService, TasksController, CalendarService, ChatController)
are embedded from the TypeScript source; the planning services
(FreeTimeService, PlacementService, PlannerService confirm, ExecService),
whose implementation files are absent from the sources (only their module
wiring, test stubs, and callers are present), are modelled from the spec and
marked as such in their doc comments.
-/

/-- A half-open time interval `[lo, hi)` in minutes. -/
structure Ivl where
  lo : Int
  hi : Int
deriving DecidableEq, Repr

/-- Length of an interval. -/
def Ivl.len (i : Ivl) : Int := i.hi - i.lo

/-- Two half-open intervals are disjoint (do not overlap). -/
def Ivl.Dis (a b : Ivl) : Prop := a.hi ≤ b.lo ∨ b.hi ≤ a.lo

instance (a b : Ivl) : Decidable (Ivl.Dis a b) := by
  unfold Ivl.Dis; infer_instance

/-- Containment of intervals. -/
def Ivl.Sub (a b : Ivl) : Prop := b.lo ≤ a.lo ∧ a.hi ≤ b.hi

instance (a b : Ivl) : Decidable (Ivl.Sub a b) := by
  unfold Ivl.Sub; infer_instance

/-! ### FreeTimeService (modelled from the spec)

Modelled from the spec: the implementation file
`planning/services/freetime.service.ts` is absent from the sources (only its
test stub and the planning-module wiring refer to it).  The spec prescribes:
pad each busy interval by the buffer on both sides, sort by start, merge
overlapping or adjacent intervals into a minimal busy set, then subtract from
the working-hours window by a single linear sweep. -/

/-- Modelled from the spec: pad a busy interval by `buf` minutes on both sides. -/
def padIvl (buf : Int) (i : Ivl) : Ivl := ⟨i.lo - buf, i.hi + buf⟩

/-- Insert an interval into a list sorted by start. -/
def insertByLo (a : Ivl) : List Ivl → List Ivl
  | [] => [a]
  | b :: rest => if a.lo ≤ b.lo then a :: b :: rest else b :: insertByLo a rest

/-- Sort intervals by start (insertion sort). -/
def sortByLo : List Ivl → List Ivl
  | [] => []
  | a :: rest => insertByLo a (sortByLo rest)

/-- Merge a pending interval `a` into the start-sorted tail, joining
overlapping or adjacent intervals. -/
def mergeInto (a : Ivl) : List Ivl → List Ivl
  | [] => [a]
  | b :: rest =>
    if b.lo ≤ a.hi then mergeInto ⟨a.lo, max a.hi b.hi⟩ rest
    else a :: mergeInto b rest

/-- Modelled from the spec: merge overlapping/adjacent intervals of a
start-sorted list into a minimal busy set. -/
def mergeSorted : List Ivl → List Ivl
  | [] => []
  | a :: rest => mergeInto a rest

/-- Modelled from the spec: linear sweep subtracting a start-sorted disjoint
busy set from the window `[cur, hi)`. -/
def sweep (cur hi : Int) : List Ivl → List Ivl
  | [] => if cur < hi then [⟨cur, hi⟩] else []
  | b :: rest =>
    (if cur < min b.lo hi then [⟨cur, min b.lo hi⟩] else []) ++
      sweep (max cur b.hi) hi rest

/-- Modelled from the spec: FreeTimeService.  Given the working-hours window,
the buffer and the day's busy intervals, compute the ordered free intervals. -/
def freeTime (win : Ivl) (buf : Int) (busy : List Ivl) : List Ivl :=
  sweep win.lo win.hi (mergeSorted (sortByLo (busy.map (padIvl buf))))

/-- Ordering of intervals by start. -/
def loLe (a b : Ivl) : Prop := a.lo ≤ b.lo

/-- Strict separation: `a` ends no later than `b` starts. -/
def sep (a b : Ivl) : Prop := a.hi ≤ b.lo

/-- A well-formed interval has its start no later than its end. -/
def IvlWF (i : Ivl) : Prop := i.lo ≤ i.hi

/-! ### PlacementService (modelled from the spec)

Modelled from the spec: the implementation file
`planning/services/placement.service.ts` is absent from the sources (only
the planning-module wiring refers to it).  The spec prescribes: process
scored tasks in descending score order, placing each task's full duration
into the earliest free interval with enough remaining capacity; a
partially-used free interval shrinks for subsequent tasks; a task that fits
in no single interval is recorded as unplaceable with reason
`no_capacity` when the total remaining free time is insufficient, and
`task_too_long_for_any_slot` otherwise. -/

/-- A block placed for a task. -/
structure PBlock where
  taskId : Nat
  ivl : Ivl
deriving DecidableEq, Repr

/-- Modelled from the spec: place a duration `d` into the earliest free
interval with enough remaining capacity, consuming that capacity. -/
def placeOne (d : Int) : List Ivl → Option (Ivl × List Ivl)
  | [] => none
  | iv :: rest =>
    if d ≤ iv.len then
      some (⟨iv.lo, iv.lo + d⟩,
        if iv.lo + d < iv.hi then Ivl.mk (iv.lo + d) iv.hi :: rest else rest)
    else
      match placeOne d rest with
      | some (blk, rest2) => some (blk, iv :: rest2)
      | none => none

/-- Modelled from the spec: the reason a task could not be placed. -/
def unplaceReason (d : Int) (frees : List Ivl) : String :=
  if d ≤ (frees.map Ivl.len).sum then "task_too_long_for_any_slot"
  else "no_capacity"

/-- Modelled from the spec: greedy placement of scored tasks (given in
descending score order) into the free intervals. -/
def placeAll : List (Nat × Int) → List Ivl → List PBlock × List (Nat × String)
  | [], _ => ([], [])
  | (tid, d) :: ts, frees =>
    match placeOne d frees with
    | some (blk, frees2) =>
      let r := placeAll ts frees2
      (⟨tid, blk⟩ :: r.1, r.2)
    | none =>
      let r := placeAll ts frees
      (r.1, (tid, unplaceReason d frees) :: r.2)

/-! ### PlannerService (modelled from the spec)

Modelled from the spec: the implementation file
`planning/services/planner.service.ts` is absent from the sources (only the
planning-module wiring and callers in the chat controller refer to it).
`propose` runs FreeTime → Scoring → Placement and persists the resulting
blocks in `proposed` state; `confirm` materializes accepted blocks into
external calendar events, skipping already-confirmed blocks with reason
`already_confirmed` and unaccepted blocks with reason `not_accepted`. -/

/-- Lifecycle state of a planned block. -/
inductive BState
  | proposed
  | confirmed
  | skippedSt
deriving DecidableEq, Repr

/-- A planned block persisted in the proposal/block store. -/
structure PlannedBlock where
  blockId : Nat
  taskId : Nat
  ivl : Ivl
  state : BState
  eventId : Option Nat
deriving DecidableEq, Repr

/-- Modelled from the spec: `propose` builds PlannedBlocks from the
Placement output, every one in `proposed` state with no calendar event. -/
def propose (win : Ivl) (buf : Int) (busy : List Ivl) (ts : List (Nat × Int)) :
    List PlannedBlock × List (Nat × String) :=
  let r := placeAll ts (freeTime win buf busy)
  (r.1.map (fun pb =>
    { blockId := pb.taskId, taskId := pb.taskId, ivl := pb.ivl,
      state := BState.proposed, eventId := none }), r.2)

/-- One line of the `{created, skipped}` report returned by confirm. -/
inductive CEntry
  | created (blockId : Nat) (eventId : Nat)
  | skippedE (blockId : Nat) (reason : String)
deriving DecidableEq, Repr

/-- Number of external calendar events a report entry stands for. -/
def createdCount : CEntry → Nat
  | CEntry.created _ _ => 1
  | CEntry.skippedE _ _ => 0

/-- Modelled from the spec: confirm a single block.  `ext` is the external
calendar provider: `ext id = some e` means event creation succeeds with
event id `e`, `none` means it fails.  Returns the updated block, the report
entry, and whether an external creation call was attempted. -/
def confirmBlock (ext : Nat → Option Nat) (accept : List Nat)
    (b : PlannedBlock) : PlannedBlock × CEntry × Bool :=
  if b.state = BState.confirmed then
    (b, CEntry.skippedE b.blockId "already_confirmed", false)
  else if b.blockId ∈ accept then
    match ext b.blockId with
    | some e =>
      ({ b with state := BState.confirmed, eventId := some e },
        CEntry.created b.blockId e, true)
    | none => (b, CEntry.skippedE b.blockId "calendar_error", true)
  else
    ({ b with state := BState.skippedSt },
      CEntry.skippedE b.blockId "not_accepted", false)

/-- Modelled from the spec: confirm processes every block of the proposal. -/
def confirmCall (ext : Nat → Option Nat) (accept : List Nat)
    (bs : List PlannedBlock) : List (PlannedBlock × CEntry × Bool) :=
  bs.map (confirmBlock ext accept)

/-! ### ExecService (modelled from the spec)

Modelled from the spec: the implementation file
`planning/services/exec.service.ts` is absent from the sources (only the
planning-module wiring and the frontend callers of `/exec/start`,
`/exec/stop`, `/exec/done` refer to it). -/

/-- Task status in the execution state machine. -/
inductive TStatus
  | todo
  | inProgress
  | done
deriving DecidableEq, Repr

/-- An execution session; `endT = none` while the session is active. -/
structure ExecSession where
  userId : String
  taskId : String
  startT : Int
  endT : Option Int
deriving DecidableEq, Repr

/-- Session store plus the task-status map of the execution state machine. -/
structure ExecState where
  sessions : List ExecSession
  tasks : List (String × TStatus)
deriving DecidableEq, Repr

/-- Error taxonomy of the execution state machine. -/
inductive ExecErr
  | AlreadyTracking
  | NoActiveSession
  | NotFoundErr
deriving DecidableEq, Repr

/-- Whether a session is an active session of this user on this task. -/
def isActiveFor (userId taskId : String) (s : ExecSession) : Bool :=
  s.userId == userId && s.taskId == taskId && s.endT == none

/-- Modelled from the spec: `start(userId, taskId)` fails with
`AlreadyTracking` when the task already has an active session for this
user; otherwise it opens a new session with start = now and sets the task
status to `in_progress`. -/
def execStart (userId taskId : String) (now : Int) (st : ExecState) :
    Except ExecErr ExecState :=
  if st.sessions.any (isActiveFor userId taskId) then
    Except.error ExecErr.AlreadyTracking
  else
    Except.ok
      { sessions := ⟨userId, taskId, now, none⟩ :: st.sessions,
        tasks := st.tasks.map
          (fun p => if p.1 == taskId then (p.1, TStatus.inProgress) else p) }

/-! ### TasksService (embedded from `tasks/tasks.service.ts`)

`est_minutes` arrives from JSON and can be absent (`undefined`), `null`, or
a number; the TypeScript guards compare it with JavaScript semantics, where
`null <= 0` evaluates to `true`.  `JSNum` models the three cases and
`jsLeZero` the JavaScript comparison `x <= 0`. -/

/-- A JavaScript value in a numeric field: absent, null, or a number. -/
inductive JSNum
  | undef
  | null
  | num (n : Int)
deriving DecidableEq, Repr

/-- JavaScript `x <= 0`: `null` coerces to `0` (true), `undefined` compares
as NaN (false), numbers compare numerically. -/
def jsLeZero : JSNum → Bool
  | JSNum.undef => false
  | JSNum.null => true
  | JSNum.num n => n ≤ 0

/-- JavaScript truthiness of an optional string: `undefined`, `null` and
the empty string are falsy. -/
def jsT : Option String → Bool
  | none => false
  | some s => s != ""

/-- JavaScript `s || dflt` on an optional string. -/
def jsOrStr (s : Option String) (dflt : String) : String :=
  match s with
  | some q => if q = "" then dflt else q
  | none => dflt

/-- JavaScript `v || null` on a numeric field: `0`, `null` and `undefined`
are falsy and become `null`. -/
def jsOrNull : JSNum → JSNum
  | JSNum.num n => if n = 0 then JSNum.null else JSNum.num n
  | _ => JSNum.null

/-- The `est_minutes` guard of `TasksService.createTask`
(`est !== undefined && est <= 0 && est !== null`). -/
def estGuardCreate (v : JSNum) : Bool :=
  v != JSNum.undef && jsLeZero v && v != JSNum.null

/-- The `est_minutes` guard of `TasksService.updateTask`
(`est !== undefined && est <= 0`). -/
def estGuardUpdate (v : JSNum) : Bool :=
  v != JSNum.undef && jsLeZero v

/-- Request body of `TasksService.createTask`. -/
structure CreateTaskData where
  title : String
  user_id : String
  notes : Option String
  priority : Option String
  due_date : Option String
  est_minutes : JSNum
  status : Option String
deriving DecidableEq, Repr

/-- The row `TasksService.createTask` inserts into the `tasks` table. -/
structure TaskRowIns where
  title : String
  user_id : String
  notes : Option String
  priority : String
  due_date : Option String
  est_minutes : JSNum
  status : String
  actual_minutes_total : Int
  sessions_count : Int
deriving DecidableEq, Repr

/-- `TasksService.createTask`: validation guards in source order, then the
insert; an error is thrown before any row is written. -/
def createTask (d : CreateTaskData) : Except String TaskRowIns :=
  if d.title = "" ∨ d.user_id = "" then
    Except.error "Title and user_id are required"
  else if estGuardCreate d.est_minutes then
    Except.error "est_minutes must be greater than 0"
  else if jsT d.priority ∧ jsOrStr d.priority "" ∉ ["low", "med", "high"] then
    Except.error "Priority must be one of: low, med, high"
  else if jsT d.status ∧ jsOrStr d.status "" ∉ ["todo", "in_progress", "done"] then
    Except.error "Status must be one of: todo, in_progress, done"
  else
    Except.ok
      { title := d.title
        user_id := d.user_id
        notes := if jsT d.notes then d.notes else none
        priority := jsOrStr d.priority "med"
        due_date := if jsT d.due_date then d.due_date else none
        est_minutes := jsOrNull d.est_minutes
        status := jsOrStr d.status "todo"
        actual_minutes_total := 0
        sessions_count := 0 }

/-- Update body of `TasksService.updateTask` (fields absent when not updated). -/
structure UpdateTaskData where
  priority : Option String
  est_minutes : JSNum
  status : Option String
deriving DecidableEq, Repr

/-- `TasksService.updateTask`: validation guards in source order, then the
update; an error is thrown before any row is modified. -/
def updateTask (u : UpdateTaskData) : Except String UpdateTaskData :=
  if estGuardUpdate u.est_minutes then
    Except.error "est_minutes must be greater than 0"
  else if jsT u.priority ∧ jsOrStr u.priority "" ∉ ["low", "med", "high"] then
    Except.error "Priority must be one of: low, med, high"
  else if jsT u.status ∧ jsOrStr u.status "" ∉ ["todo", "in_progress", "done"] then
    Except.error "Status must be one of: todo, in_progress, done"
  else
    Except.ok u

/-! ### ChatController.createCalendarEventForTask
(embedded from `gemini/chat.controller.ts`, lines 720–765) -/

/-- A task record as passed to `createCalendarEventForTask`. -/
structure ChatTask where
  id : String
  user_id : String
  title : String
  est_minutes : Option Int
  due_date : Option String
deriving DecidableEq, Repr

/-- A row of the `task_blocks` table. -/
structure TaskBlockRow where
  id : String
  user_id : String
  task_id : String
  start_ts : Int
  end_ts : Int
  google_event_id : String
  state : String
  buffer_minutes : Int
deriving DecidableEq, Repr

/-- The start/end times chosen by `createCalendarEventForTask`: 9 AM on the
due date when one exists, otherwise five minutes from now.  `dateToMin`
maps a calendar date to the minute of its midnight. -/
def chatBlockIvl (dateToMin : String → Int) (now : Int)
    (due_date : Option String) (estMinutes : Int) : Ivl :=
  match due_date with
  | some d => ⟨dateToMin d + 540, dateToMin d + 540 + estMinutes⟩
  | none => ⟨now + 5, now + 5 + estMinutes⟩

/-- `ChatController.createCalendarEventForTask`: computes the event window
(`task.est_minutes || 60` minutes long), creates the external event, and —
when the provider returned an event id — inserts a `task_blocks` row whose
`state` is `confirmed`.  `calendarEventId` is the id returned by the
provider (`none`: creation failed or returned no id). -/
def createCalendarEventForTask (dateToMin : String → Int) (now : Int)
    (blockId : String) (task : ChatTask) (calendarEventId : Option String) :
    Option TaskBlockRow :=
  let est : Int := match task.est_minutes with
    | some n => if n = 0 then 60 else n
    | none => 60
  let ivl := chatBlockIvl dateToMin now task.due_date est
  match calendarEventId with
  | some eid =>
    if eid = "" then none
    else some
      { id := blockId
        user_id := task.user_id
        task_id := task.id
        start_ts := ivl.lo
        end_ts := ivl.hi
        google_event_id := eid
        state := "confirmed"
        buffer_minutes := 0 }
  | none => none

/-! ### TasksController.deleteTask
(embedded from `tasks/tasks.controller.ts`, lines 25–112) -/

/-- A row of the `task_sessions` table. -/
structure SessionRow where
  id : String
  task_id : String
deriving DecidableEq, Repr

/-- The storage the delete cascade touches. -/
structure Store where
  task_blocks : List TaskBlockRow
  task_sessions : List SessionRow
  tasks : List String
deriving DecidableEq, Repr

/-- One storage/provider operation performed by the delete cascade. -/
inductive DelOp
  | calendarDelete (eventId : String)
  | deleteSessions (taskId : String)
  | deleteBlocks (taskId : String)
  | deleteTaskRow (taskId : String)
deriving DecidableEq, Repr

/-- `TasksController.deleteTask`, step order as in the source: query the
task's blocks, attempt a calendar delete for every block with a (truthy)
google_event_id, delete the task's sessions, delete the task's blocks,
and delete the task row itself last. -/
def deleteTaskCascade (st : Store) (taskId : String) : List DelOp × Store :=
  (((st.task_blocks.filter (fun b => b.task_id == taskId)).filter
      (fun b => b.google_event_id != "")).map
      (fun b => DelOp.calendarDelete b.google_event_id)
    ++ [DelOp.deleteSessions taskId, DelOp.deleteBlocks taskId,
        DelOp.deleteTaskRow taskId],
   { task_blocks := st.task_blocks.filter (fun b => ¬ b.task_id == taskId)
     task_sessions := st.task_sessions.filter (fun s => ¬ s.task_id == taskId)
     tasks := st.tasks.filter (fun t => ¬ t == taskId) })

/-! ### CalendarService (embedded from `calendar/calendar.service.ts`,
mirrored in `app.module.ts`) -/

/-- A row of the `calendar_events` mirror table (no user column). -/
structure CalRow where
  google_event_id : String
  start_ts : String
  end_ts : String
  summary : Option String
  is_all_day : Bool
deriving DecidableEq, Repr

/-- A Google Calendar event as returned by the provider. -/
structure GEvent where
  id : String
  startDateTime : Option String
  startDate : Option String
  endDateTime : Option String
  endDate : Option String
  summary : Option String
deriving DecidableEq, Repr

/-- The row `syncEventsToDatabase` builds from one fetched event, or `none`
when start, end or id is missing/falsy. -/
def eventRow (ev : GEvent) : Option CalRow :=
  let startISO : Option String :=
    match ev.startDateTime with
    | some s => some s
    | none => ev.startDate.map (fun d => d ++ "T00:00:00.000Z")
  let endISO : Option String :=
    match ev.endDateTime with
    | some s => some s
    | none => ev.endDate.map (fun d => d ++ "T23:59:59.000Z")
  match startISO, endISO with
  | some s, some e =>
    if s = "" ∨ e = "" ∨ ev.id = "" then none
    else some
      { google_event_id := ev.id
        start_ts := s
        end_ts := e
        summary := ev.summary
        is_all_day := jsT ev.startDate && !(jsT ev.startDateTime) }
  | _, _ => none

/-- `CalendarService.syncEventsToDatabase`: delete every row whose
`google_event_id` is not the empty string (i.e. all rows, with no per-user
filter), then insert the rows built from the fetched items. -/
def syncEventsToDatabase (items : List GEvent) (table : List CalRow) :
    List CalRow :=
  table.filter (fun r => ¬ r.google_event_id != "") ++ items.filterMap eventRow

/-- `CalendarService.fetchCalendarEvents`: fetch the calling user's events
(`eventsOf` is the provider) and mirror them by `syncEventsToDatabase`. -/
def fetchCalendarEvents (eventsOf : String → List GEvent) (userId : String)
    (table : List CalRow) : List GEvent × List CalRow :=
  (eventsOf userId, syncEventsToDatabase (eventsOf userId) table)

/-- `fetch` response `ok` flag: status in the range 200–299. -/
def resOk (status : Nat) : Bool := 200 ≤ status && status < 300

/-- The value `CalendarService.deleteEvent` returns on success. -/
structure DeleteResult where
  deleted : Bool
  googleEventId : String
deriving DecidableEq, Repr

/-- `CalendarService.deleteEvent` (non-dev path): throws for a provider
status that is neither OK nor 404 (before touching the table); otherwise
removes the matching `calendar_events` row and returns `{deleted := true}`.
-/
def deleteEvent (status : Nat) (eventId : String) (table : List CalRow) :
    Except String (DeleteResult × List CalRow) :=
  if ¬ resOk status ∧ status ≠ 404 then
    Except.error "Failed to delete event"
  else
    Except.ok ({ deleted := true, googleEventId := eventId },
      table.filter (fun r => r.google_event_id != eventId))

/-- The concrete store used by the C5 witness: one block carrying a google
event id, one session, and the task row. -/
def store5 : Store :=
  { task_blocks :=
      [{ id := "b1", user_id := "u1", task_id := "t1", start_ts := 540,
         end_ts := 600, google_event_id := "ev1", state := "confirmed",
         buffer_minutes := 0 }],
    task_sessions := [{ id := "s1", task_id := "t1" }],
    tasks := ["t1"] }

/-- The concrete execution state used by the C7 witness: one active session
of user u1 on task t1. -/
def exState7 : ExecState :=
  { sessions :=
      [{ userId := "u1", taskId := "t1", startT := 100, endT := none }],
    tasks := [("t1", TStatus.inProgress)] }

/-! ## Theorems -/

theorem Ivl.Dis.symm {a b : Ivl} (h : Ivl.Dis a b) : Ivl.Dis b a :=
  h.elim Or.inr Or.inl

theorem Ivl.Sub.refl (a : Ivl) : Ivl.Sub a a := ⟨le_refl _, le_refl _⟩

theorem Ivl.Sub.trans {a b c : Ivl} (h₁ : Ivl.Sub a b) (h₂ : Ivl.Sub b c) :
    Ivl.Sub a c :=
  ⟨le_trans h₂.1 h₁.1, le_trans h₁.2 h₂.2⟩

/-- Disjointness is preserved by shrinking both sides. -/
theorem Ivl.Dis.mono {a b a' b' : Ivl} (ha : Ivl.Sub a a') (hb : Ivl.Sub b b')
    (h : Ivl.Dis a' b') : Ivl.Dis a b := by
  rcases h with h | h
  · exact Or.inl (le_trans ha.2 (le_trans h hb.1))
  · exact Or.inr (le_trans hb.2 (le_trans h ha.1))

theorem sep_dis {a b : Ivl} (h : sep a b) : Ivl.Dis a b := Or.inl h

theorem mem_insertByLo {a x : Ivl} : ∀ {l : List Ivl},
    x ∈ insertByLo a l ↔ x = a ∨ x ∈ l
  | [] => by simp [insertByLo]
  | b :: rest => by
    simp only [insertByLo]
    split
    · simp
    · simp [mem_insertByLo (l := rest)]
      tauto

theorem mem_sortByLo {x : Ivl} : ∀ {l : List Ivl}, x ∈ sortByLo l ↔ x ∈ l
  | [] => Iff.rfl
  | a :: rest => by
    simp [sortByLo, mem_insertByLo, mem_sortByLo (l := rest)]

theorem sorted_insertByLo {a : Ivl} : ∀ {l : List Ivl},
    l.Pairwise loLe → (insertByLo a l).Pairwise loLe
  | [], _ => List.pairwise_singleton _ _
  | b :: rest, h => by
    simp only [insertByLo]
    rcases List.pairwise_cons.mp h with ⟨hb, hrest⟩
    split
    · next hle =>
      refine List.pairwise_cons.mpr ⟨?_, h⟩
      intro y hy
      rcases List.mem_cons.mp hy with rfl | hy
      · exact hle
      · exact le_trans hle (hb _ hy)
    · next hgt =>
      refine List.pairwise_cons.mpr ⟨?_, sorted_insertByLo hrest⟩
      intro y hy
      rcases mem_insertByLo.mp hy with rfl | hy
      · exact le_of_not_le hgt
      · exact hb _ hy

theorem sorted_sortByLo : ∀ {l : List Ivl}, (sortByLo l).Pairwise loLe
  | [] => List.Pairwise.nil
  | _ :: _ => sorted_insertByLo sorted_sortByLo

theorem mergeInto_lo {x : Ivl} : ∀ {a : Ivl} {l : List Ivl},
    (a :: l).Pairwise loLe → x ∈ mergeInto a l → a.lo ≤ x.lo
  | a, [], _, hx => by
    simp only [mergeInto, List.mem_singleton] at hx
    exact hx ▸ le_refl _
  | a, b :: rest, h, hx => by
    rcases List.pairwise_cons.mp h with ⟨hb, hrest⟩
    simp only [mergeInto] at hx
    split at hx
    · have hsort : (Ivl.mk a.lo (max a.hi b.hi) :: rest).Pairwise loLe := by
        refine List.pairwise_cons.mpr ⟨?_, (List.pairwise_cons.mp hrest).2⟩
        intro y hy
        exact hb _ (List.mem_cons_of_mem _ hy)
      have hres := mergeInto_lo (x := x) hsort hx
      exact hres
    · rcases List.mem_cons.mp hx with rfl | hx
      · exact le_refl _
      · exact le_trans (hb _ (List.mem_cons_self _ _)) (mergeInto_lo hrest hx)

theorem mergeInto_sorted : ∀ {a : Ivl} {l : List Ivl},
    (a :: l).Pairwise loLe → (mergeInto a l).Pairwise loLe
  | _, [], _ => List.pairwise_singleton _ _
  | a, b :: rest, h => by
    rcases List.pairwise_cons.mp h with ⟨hb, hrest⟩
    simp only [mergeInto]
    split
    · have hsort : (Ivl.mk a.lo (max a.hi b.hi) :: rest).Pairwise loLe := by
        refine List.pairwise_cons.mpr ⟨?_, (List.pairwise_cons.mp hrest).2⟩
        intro y hy
        exact hb _ (List.mem_cons_of_mem _ hy)
      exact mergeInto_sorted hsort
    · refine List.pairwise_cons.mpr ⟨?_, mergeInto_sorted hrest⟩
      intro y hy
      exact le_trans (hb _ (List.mem_cons_self _ _)) (mergeInto_lo hrest hy)

theorem mergeInto_wf : ∀ {a : Ivl} {l : List Ivl},
    IvlWF a → (∀ i ∈ l, IvlWF i) → ∀ m ∈ mergeInto a l, IvlWF m
  | a, [], ha, _, m, hm => by
    simp only [mergeInto, List.mem_singleton] at hm
    exact hm ▸ ha
  | a, b :: rest, ha, hl, m, hm => by
    simp only [mergeInto] at hm
    split at hm
    · refine mergeInto_wf ?_ (fun i hi => hl i (List.mem_cons_of_mem _ hi)) m hm
      exact le_trans ha (le_max_left _ _)
    · rcases List.mem_cons.mp hm with rfl | hm
      · exact ha
      · exact mergeInto_wf (hl b (List.mem_cons_self _ _))
          (fun i hi => hl i (List.mem_cons_of_mem _ hi)) m hm

theorem mergeInto_cover : ∀ {a : Ivl} {l : List Ivl},
    (a :: l).Pairwise loLe → ∀ i ∈ a :: l, ∃ m ∈ mergeInto a l, Ivl.Sub i m
  | a, [], _, i, hi => by
    simp only [List.mem_singleton] at hi
    exact ⟨a, by simp [mergeInto], hi ▸ Ivl.Sub.refl _⟩
  | a, b :: rest, h, i, hi => by
    rcases List.pairwise_cons.mp h with ⟨hb, hrest⟩
    simp only [mergeInto]
    split
    · next hle =>
      have hsort : (Ivl.mk a.lo (max a.hi b.hi) :: rest).Pairwise loLe := by
        refine List.pairwise_cons.mpr ⟨?_, (List.pairwise_cons.mp hrest).2⟩
        intro y hy
        exact hb _ (List.mem_cons_of_mem _ hy)
      rcases List.mem_cons.mp hi with rfl | hi2
      · rcases mergeInto_cover hsort _ (List.mem_cons_self _ _) with ⟨m, hm, hsub⟩
        refine ⟨m, hm, Ivl.Sub.trans ?_ hsub⟩
        exact (⟨le_refl _, le_max_left _ _⟩ :
          Ivl.Sub i (Ivl.mk i.lo (max i.hi b.hi)))
      · rcases List.mem_cons.mp hi2 with rfl | hi3
        · rcases mergeInto_cover hsort _ (List.mem_cons_self _ _) with ⟨m, hm, hsub⟩
          refine ⟨m, hm, Ivl.Sub.trans ?_ hsub⟩
          exact (⟨hb _ (List.mem_cons_self _ _), le_max_right _ _⟩ :
            Ivl.Sub i (Ivl.mk a.lo (max a.hi i.hi)))
        · rcases mergeInto_cover hsort _ (List.mem_cons_of_mem _ hi3) with ⟨m, hm, hsub⟩
          exact ⟨m, hm, hsub⟩
    · rcases List.mem_cons.mp hi with rfl | hi2
      · exact ⟨i, List.mem_cons_self _ _, Ivl.Sub.refl _⟩
      · rcases mergeInto_cover hrest _ hi2 with ⟨m, hm, hsub⟩
        exact ⟨m, List.mem_cons_of_mem _ hm, hsub⟩

theorem mergeSorted_sorted {l : List Ivl} (h : l.Pairwise loLe) :
    (mergeSorted l).Pairwise loLe := by
  cases l with
  | nil => exact List.Pairwise.nil
  | cons a rest => exact mergeInto_sorted h

theorem mergeSorted_wf {l : List Ivl} (h : ∀ i ∈ l, IvlWF i) :
    ∀ m ∈ mergeSorted l, IvlWF m := by
  cases l with
  | nil => intro m hm; simp [mergeSorted] at hm
  | cons a rest =>
    exact mergeInto_wf (h a (List.mem_cons_self _ _))
      (fun i hi => h i (List.mem_cons_of_mem _ hi))

theorem mergeSorted_cover {l : List Ivl} (h : l.Pairwise loLe) :
    ∀ i ∈ l, ∃ m ∈ mergeSorted l, Ivl.Sub i m := by
  cases l with
  | nil => intro i hi; simp at hi
  | cons a rest => exact mergeInto_cover h

theorem sweep_bounds : ∀ {bs : List Ivl} {cur hi : Int}, ∀ I ∈ sweep cur hi bs,
    cur ≤ I.lo ∧ I.lo < I.hi ∧ I.hi ≤ hi
  | [], cur, hi, I, hI => by
    simp only [sweep] at hI
    split at hI
    · next hlt =>
      rcases List.mem_singleton.mp hI with rfl
      exact ⟨le_refl _, hlt, le_refl _⟩
    · simp at hI
  | b :: rest, cur, hi, I, hI => by
    simp only [sweep, List.mem_append] at hI
    rcases hI with hI | hI
    · split at hI
      · next hlt =>
        rcases List.mem_singleton.mp hI with rfl
        exact ⟨le_refl _, hlt, min_le_right _ _⟩
      · simp at hI
    · rcases sweep_bounds I hI with ⟨h1, h2, h3⟩
      exact ⟨le_trans (le_max_left _ _) h1, h2, h3⟩

theorem sweep_dis_busy : ∀ {bs : List Ivl} {cur hi : Int},
    bs.Pairwise loLe → ∀ I ∈ sweep cur hi bs, ∀ b ∈ bs, Ivl.Dis I b
  | [], _, _, _, _, _, b, hb => by simp at hb
  | b0 :: rest, cur, hi, hsort, I, hI, b, hb => by
    rcases List.pairwise_cons.mp hsort with ⟨hb0, hrest⟩
    simp only [sweep, List.mem_append] at hI
    rcases hI with hI | hI
    · have hIeq : I = Ivl.mk cur (min b0.lo hi) := by
        split at hI
        · exact List.mem_singleton.mp hI
        · simp at hI
      rcases List.mem_cons.mp hb with rfl | hb2
      · exact Or.inl (hIeq ▸ min_le_left _ _)
      · exact Or.inl (hIeq ▸ le_trans (min_le_left _ _) (hb0 _ hb2))
    · rcases List.mem_cons.mp hb with rfl | hb2
      · have hlo := (sweep_bounds I hI).1
        exact Or.inr (le_trans (le_max_right _ _) hlo)
      · exact sweep_dis_busy hrest I hI b hb2

theorem sweep_pairwise : ∀ {bs : List Ivl} {cur hi : Int},
    (∀ b ∈ bs, IvlWF b) → (sweep cur hi bs).Pairwise sep
  | [], cur, hi, _ => by
    simp only [sweep]
    split
    · exact List.pairwise_singleton _ _
    · exact List.Pairwise.nil
  | b :: rest, cur, hi, hwf => by
    simp only [sweep]
    refine List.pairwise_append.mpr ⟨?_, ?_, ?_⟩
    · split
      · exact List.pairwise_singleton _ _
      · exact List.Pairwise.nil
    · exact sweep_pairwise fun i hi2 => hwf i (List.mem_cons_of_mem _ hi2)
    · intro x hx y hy
      have hxeq : x = Ivl.mk cur (min b.lo hi) := by
        split at hx
        · exact List.mem_singleton.mp hx
        · simp at hx
      have hylo := (sweep_bounds y hy).1
      have hbwf := hwf b (List.mem_cons_self _ _)
      have : min b.lo hi ≤ b.hi := le_trans (min_le_left _ _) hbwf
      show x.hi ≤ y.lo
      rw [hxeq]
      exact le_trans this (le_trans (le_max_right _ _) hylo)

/-- The free intervals computed by FreeTime are pairwise separated
(ordered and non-overlapping). -/
theorem freeTime_pairwise {win : Ivl} {buf : Int} {busy : List Ivl}
    (hbuf : 0 ≤ buf) (hwf : ∀ b ∈ busy, IvlWF b) :
    (freeTime win buf busy).Pairwise sep := by
  refine sweep_pairwise ?_
  intro m hm
  refine mergeSorted_wf ?_ m hm
  intro i hi
  rcases List.mem_map.mp (mem_sortByLo.mp hi) with ⟨b, hb, rfl⟩
  have := hwf b hb
  simp only [IvlWF, padIvl] at this ⊢
  omega

/-- No free interval computed by FreeTime overlaps any input busy interval. -/
theorem freeTime_dis_busy {win : Ivl} {buf : Int} {busy : List Ivl}
    (hbuf : 0 ≤ buf) :
    ∀ I ∈ freeTime win buf busy, ∀ b ∈ busy, Ivl.Dis I b := by
  intro I hI b hb
  have hpad : padIvl buf b ∈ sortByLo (busy.map (padIvl buf)) :=
    mem_sortByLo.mpr (List.mem_map_of_mem _ hb)
  rcases mergeSorted_cover sorted_sortByLo _ hpad with ⟨m, hm, hsub⟩
  have hdis : Ivl.Dis I m :=
    sweep_dis_busy (mergeSorted_sorted sorted_sortByLo) I hI m hm
  have hbsub : Ivl.Sub b (padIvl buf b) := by
    refine ⟨?_, ?_⟩ <;> simp [padIvl] <;> omega
  exact Ivl.Dis.mono (Ivl.Sub.refl I) (Ivl.Sub.trans hbsub hsub) hdis

/-- Free intervals are nonempty and lie within the working-hours window. -/
theorem freeTime_bounds {win : Ivl} {buf : Int} {busy : List Ivl} :
    ∀ I ∈ freeTime win buf busy, win.lo ≤ I.lo ∧ I.lo < I.hi ∧ I.hi ≤ win.hi :=
  fun I hI => sweep_bounds I hI

theorem placeOne_sub : ∀ {frees : List Ivl} {d : Int} {blk : Ivl}
    {frees2 : List Ivl}, placeOne d frees = some (blk, frees2) →
    ∃ f ∈ frees, Ivl.Sub blk f
  | [], d, blk, frees2, h => by simp [placeOne] at h
  | iv :: rest, d, blk, frees2, h => by
    simp only [placeOne] at h
    split at h
    · next hfit =>
      rcases Option.some.inj h with h2
      have hb : blk = Ivl.mk iv.lo (iv.lo + d) := (congrArg Prod.fst h2).symm
      refine ⟨iv, List.mem_cons_self _ _, ?_⟩
      rw [hb]
      unfold Ivl.Sub Ivl.len at *
      constructor
      · exact le_refl _
      · simp only
        omega
    · revert h
      match hrec : placeOne d rest with
      | some (blk0, rest2) =>
        intro h
        rcases Option.some.inj h with h2
        have hb : blk = blk0 := (congrArg Prod.fst h2).symm
        rcases placeOne_sub hrec with ⟨f, hf, hsub⟩
        exact ⟨f, List.mem_cons_of_mem _ hf, hb ▸ hsub⟩
      | none => intro h; simp at h

theorem placeOne_rest_sub : ∀ {frees : List Ivl} {d : Int} {blk : Ivl}
    {frees2 : List Ivl}, 0 ≤ d → placeOne d frees = some (blk, frees2) →
    ∀ g ∈ frees2, ∃ f ∈ frees, Ivl.Sub g f
  | [], d, blk, frees2, _, h => by simp [placeOne] at h
  | iv :: rest, d, blk, frees2, hd, h => by
    simp only [placeOne] at h
    split at h
    · next hfit =>
      rcases Option.some.inj h with h2
      have hr : frees2 =
          (if iv.lo + d < iv.hi then Ivl.mk (iv.lo + d) iv.hi :: rest else rest) :=
        (congrArg Prod.snd h2).symm
      intro g hg
      rw [hr] at hg
      split at hg
      · rcases List.mem_cons.mp hg with rfl | hg2
        · refine ⟨iv, List.mem_cons_self _ _, ⟨?_, ?_⟩⟩
          · show iv.lo ≤ iv.lo + d
            omega
          · exact le_refl _
        · exact ⟨g, List.mem_cons_of_mem _ hg2, Ivl.Sub.refl _⟩
      · exact ⟨g, List.mem_cons_of_mem _ hg, Ivl.Sub.refl _⟩
    · revert h
      match hrec : placeOne d rest with
      | some (blk0, rest2) =>
        intro h
        rcases Option.some.inj h with h2
        have hr : frees2 = iv :: rest2 := (congrArg Prod.snd h2).symm
        intro g hg
        rw [hr] at hg
        rcases List.mem_cons.mp hg with rfl | hg2
        · exact ⟨g, List.mem_cons_self _ _, Ivl.Sub.refl _⟩
        · rcases placeOne_rest_sub hd hrec g hg2 with ⟨f, hf, hsub⟩
          exact ⟨f, List.mem_cons_of_mem _ hf, hsub⟩
      | none => intro h; simp at h

theorem placeOne_dis : ∀ {frees : List Ivl} {d : Int} {blk : Ivl}
    {frees2 : List Ivl}, 0 ≤ d → frees.Pairwise Ivl.Dis →
    placeOne d frees = some (blk, frees2) →
    (∀ g ∈ frees2, Ivl.Dis blk g) ∧ frees2.Pairwise Ivl.Dis
  | [], d, blk, frees2, _, _, h => by simp [placeOne] at h
  | iv :: rest, d, blk, frees2, hd, hpw, h => by
    rcases List.pairwise_cons.mp hpw with ⟨hiv, hrest⟩
    simp only [placeOne] at h
    split at h
    · next hfit =>
      rcases Option.some.inj h with h2
      have hb : blk = Ivl.mk iv.lo (iv.lo + d) := (congrArg Prod.fst h2).symm
      have hr : frees2 =
          (if iv.lo + d < iv.hi then Ivl.mk (iv.lo + d) iv.hi :: rest else rest) :=
        (congrArg Prod.snd h2).symm
      have hblkiv : Ivl.Sub blk iv := by
        rw [hb]
        simp only [Ivl.len] at hfit
        refine ⟨le_refl _, ?_⟩
        show iv.lo + d ≤ iv.hi
        omega
      constructor
      · intro g hg
        rw [hr] at hg
        split at hg
        · rcases List.mem_cons.mp hg with rfl | hg2
          · exact Or.inl (by rw [hb])
          · exact Ivl.Dis.mono hblkiv (Ivl.Sub.refl _) (hiv _ hg2)
        · exact Ivl.Dis.mono hblkiv (Ivl.Sub.refl _) (hiv _ hg)
      · rw [hr]
        split
        · next hlt =>
          refine List.pairwise_cons.mpr ⟨?_, hrest⟩
          intro g hg
          have hsub : Ivl.Sub (Ivl.mk (iv.lo + d) iv.hi) iv := ⟨by simp; omega, le_refl _⟩
          exact Ivl.Dis.mono hsub (Ivl.Sub.refl _) (hiv _ hg)
        · exact hrest
    · revert h
      match hrec : placeOne d rest with
      | some (blk0, rest2) =>
        intro h
        rcases Option.some.inj h with h2
        have hb : blk = blk0 := (congrArg Prod.fst h2).symm
        have hr : frees2 = iv :: rest2 := (congrArg Prod.snd h2).symm
        rcases placeOne_dis hd hrest hrec with ⟨hdis, hpw2⟩
        rcases placeOne_sub hrec with ⟨f, hf, hsub⟩
        constructor
        · intro g hg
          rw [hr] at hg
          rcases List.mem_cons.mp hg with rfl | hg2
          · exact (Ivl.Dis.mono (Ivl.Sub.refl _) (hb ▸ hsub) (hiv _ hf)).symm
          · exact hb ▸ hdis g hg2
        · rw [hr]
          refine List.pairwise_cons.mpr ⟨?_, hpw2⟩
          intro g hg
          rcases placeOne_rest_sub hd hrec g hg with ⟨f2, hf2, hsub2⟩
          exact Ivl.Dis.mono (Ivl.Sub.refl _) hsub2 (hiv _ hf2)
      | none => intro h; simp at h

theorem placeAll_dis : ∀ {ts : List (Nat × Int)} {frees : List Ivl},
    (∀ t ∈ ts, 0 ≤ t.2) → frees.Pairwise Ivl.Dis →
    ((placeAll ts frees).1.map PBlock.ivl).Pairwise Ivl.Dis ∧
      ∀ b ∈ (placeAll ts frees).1, ∃ f ∈ frees, Ivl.Sub b.ivl f
  | [], frees, _, _ => by simp [placeAll]
  | (tid, d) :: ts, frees, hpos, hpw => by
    have hd : (0 : Int) ≤ d := hpos (tid, d) (List.mem_cons_self _ _)
    have hpos2 : ∀ t ∈ ts, (0 : Int) ≤ t.2 :=
      fun t ht => hpos t (List.mem_cons_of_mem _ ht)
    simp only [placeAll]
    match hrec : placeOne d frees with
    | some (blk, frees2) =>
      rcases placeOne_dis hd hpw hrec with ⟨hdis, hpw2⟩
      rcases placeAll_dis hpos2 hpw2 with ⟨ih1, ih2⟩
      simp only [List.map_cons]
      constructor
      · refine List.pairwise_cons.mpr ⟨?_, ih1⟩
        intro g hg
        rcases List.mem_map.mp hg with ⟨pb, hpb, rfl⟩
        rcases ih2 pb hpb with ⟨f, hf, hsub⟩
        exact Ivl.Dis.mono (Ivl.Sub.refl _) hsub (hdis f hf)
      · intro b hb
        rcases List.mem_cons.mp hb with rfl | hb2
        · exact placeOne_sub hrec
        · rcases ih2 b hb2 with ⟨f, hf, hsub⟩
          rcases placeOne_rest_sub hd hrec f hf with ⟨f2, hf2, hsub2⟩
          exact ⟨f2, hf2, Ivl.Sub.trans hsub hsub2⟩
    | none =>
      exact placeAll_dis hpos2 hpw

/-! ## Claim theorems -/

/-- C6: for working hours 09:00–17:00 (minutes 540–1020), one busy interval
12:00–13:00 (720–780) and buffer 0, FreeTime returns exactly the two free
intervals 09:00–12:00 and 13:00–17:00, in that order. -/
theorem C6_scenario_A :
    freeTime ⟨540, 1020⟩ 0 [⟨720, 780⟩] = [⟨540, 720⟩, ⟨780, 1020⟩] := by
  decide

/-- C1 counterexample: `ChatController.createCalendarEventForTask` writes a
`task_blocks` row directly in `confirmed` state (never `proposed`, and
outside the Planner's confirm operation), shown here at a concrete task with
a due date and a successful event creation. -/
theorem C1_counterexample_direct_confirmed_write :
    (createCalendarEventForTask (fun _ => 0) 0 "b1"
        { id := "t1", user_id := "u1", title := "Essay",
          est_minutes := some 60, due_date := some "2026-01-05" }
        (some "ev1")).map TaskBlockRow.state = some "confirmed" ∧
    "confirmed" ≠ "proposed" := by
  constructor
  · rfl
  · decide

/-- C1 (amended): blocks created by the Planner's propose are all in
`proposed` state and a confirm step moves a proposed block only to
`confirmed` or `skipped`; however `ChatController.createCalendarEventForTask`
additionally writes blocks directly in `confirmed` state whenever the
provider returns an event id, bypassing the propose/confirm lifecycle. -/
theorem C1_amended_block_lifecycle :
    (∀ win buf busy ts, ∀ b ∈ (propose win buf busy ts).1,
      b.state = BState.proposed) ∧
    (∀ ext accept b, b.state = BState.proposed →
      (confirmBlock ext accept b).1.state = BState.proposed ∨
      (confirmBlock ext accept b).1.state = BState.confirmed ∨
      (confirmBlock ext accept b).1.state = BState.skippedSt) ∧
    (∀ dateToMin now bid task eid row,
      createCalendarEventForTask dateToMin now bid task eid = some row →
      row.state = "confirmed") := by
  refine ⟨?_, ?_, ?_⟩
  · intro win buf busy ts b hb
    simp only [propose, List.mem_map] at hb
    rcases hb with ⟨pb, _, rfl⟩
    rfl
  · intro ext accept b hprop
    simp only [confirmBlock]
    split
    · exact Or.inl hprop
    · split
      · match ext b.blockId with
        | some e => exact Or.inr (Or.inl rfl)
        | none => exact Or.inl hprop
      · exact Or.inr (Or.inr rfl)
  · intro dateToMin now bid task eid row h
    simp only [createCalendarEventForTask] at h
    match eid with
    | some e =>
      simp only at h
      split at h
      · exact absurd h (by simp)
      · rcases Option.some.inj h with rfl
        rfl
    | none => exact absurd h (by simp)

/-- C1 witness: the amended theorem applied at a concrete task with no due
date: the inserted block is in `confirmed` state. -/
theorem C1_amended_block_lifecycle_witness :
    ({ id := "b2", user_id := "u", task_id := "t2", start_ts := 5, end_ts := 65,
       google_event_id := "e2", state := "confirmed",
       buffer_minutes := 0 } : TaskBlockRow).state = "confirmed" :=
  C1_amended_block_lifecycle.2.2 (fun _ => 0) 0 "b2"
    { id := "t2", user_id := "u", title := "x", est_minutes := none,
      due_date := none }
    (some "e2") _ (by decide)

/-- C3 counterexample: two tasks of the same user with the same due date are
both given the 09:00 slot of that date by
`ChatController.createCalendarEventForTask`, so the block store holds two
overlapping PlannedBlocks — the store-wide non-overlap invariant fails. -/
theorem C3_counterexample_overlapping_blocks :
    (createCalendarEventForTask (fun _ => 0) 0 "b1"
        { id := "t1", user_id := "u1", title := "A",
          est_minutes := some 60, due_date := some "2026-01-05" }
        (some "ev1")).map (fun r => (r.task_id, Ivl.mk r.start_ts r.end_ts)) =
      some ("t1", ⟨540, 600⟩) ∧
    (createCalendarEventForTask (fun _ => 0) 0 "b2"
        { id := "t2", user_id := "u1", title := "B",
          est_minutes := some 60, due_date := some "2026-01-05" }
        (some "ev2")).map (fun r => (r.task_id, Ivl.mk r.start_ts r.end_ts)) =
      some ("t2", ⟨540, 600⟩) ∧
    ¬ Ivl.Dis ⟨540, 600⟩ ⟨540, 600⟩ := by
  refine ⟨rfl, rfl, ?_⟩
  decide

/-- C3 (amended): the blocks of a single proposal produced by the planning
pipeline (FreeTime → Placement, modelled from the spec) are pairwise
non-overlapping and none overlaps any input busy interval; the store-wide
invariant over all PlannedBlocks fails, because
`ChatController.createCalendarEventForTask` inserts blocks at fixed times
with no overlap check. -/
theorem C3_amended_proposal_non_overlap (win : Ivl) (buf : Int)
    (busy : List Ivl) (ts : List (Nat × Int)) (hbuf : 0 ≤ buf)
    (hwf : ∀ b ∈ busy, IvlWF b) (hpos : ∀ t ∈ ts, 0 < t.2) :
    ((propose win buf busy ts).1.map PlannedBlock.ivl).Pairwise Ivl.Dis ∧
    ∀ blk ∈ (propose win buf busy ts).1, ∀ b ∈ busy, Ivl.Dis blk.ivl b := by
  have hpos2 : ∀ t ∈ ts, (0 : Int) ≤ t.2 := fun t ht => le_of_lt (hpos t ht)
  have hpw : (freeTime win buf busy).Pairwise Ivl.Dis :=
    (freeTime_pairwise hbuf hwf).imp sep_dis
  rcases placeAll_dis hpos2 hpw with ⟨h1, h2⟩
  have hmap : (propose win buf busy ts).1.map PlannedBlock.ivl =
      (placeAll ts (freeTime win buf busy)).1.map PBlock.ivl := by
    simp [propose, List.map_map]
  constructor
  · rw [hmap]; exact h1
  · intro blk hblk b hb
    simp only [propose, List.mem_map] at hblk
    rcases hblk with ⟨pb, hpb, rfl⟩
    rcases h2 pb hpb with ⟨f, hf, hsub⟩
    have hdis : Ivl.Dis f b := freeTime_dis_busy hbuf f hf b hb
    exact Ivl.Dis.mono hsub (Ivl.Sub.refl _) hdis

/-- C3 witness: the amended theorem at a concrete day — window 09:00–17:00,
busy 12:00–13:00, tasks of 90 and 60 minutes. -/
theorem C3_amended_proposal_non_overlap_witness :
    ((0 : Int) ≤ 0 ∧ (∀ b ∈ [Ivl.mk 720 780], IvlWF b) ∧
      (∀ t ∈ [(1, (90 : Int)), (2, 60)], (0 : Int) < t.2)) ∧
    (((propose ⟨540, 1020⟩ 0 [⟨720, 780⟩] [(1, 90), (2, 60)]).1.map
        PlannedBlock.ivl).Pairwise Ivl.Dis ∧
      ∀ blk ∈ (propose ⟨540, 1020⟩ 0 [⟨720, 780⟩] [(1, 90), (2, 60)]).1,
        ∀ b ∈ [Ivl.mk 720 780], Ivl.Dis blk.ivl b) := by
  refine ⟨⟨le_refl _, ?_, ?_⟩, ?_⟩
  · intro b hb
    rcases List.mem_singleton.mp hb with rfl
    exact (by decide : (720 : Int) ≤ 780)
  · decide
  · exact C3_amended_proposal_non_overlap ⟨540, 1020⟩ 0 [⟨720, 780⟩]
      [(1, 90), (2, 60)] (le_refl _)
      (by intro b hb; rcases List.mem_singleton.mp hb with rfl;
          exact (by decide : (720 : Int) ≤ 780))
      (by decide)

/-- C2: confirm idempotence (modelled from the spec).  For every block of a
proposal whose blocks start in `proposed` state, two sequential confirm
calls with the same accepted block ids create at most one external calendar
event for the block; the second call reports a previously-confirmed block
as skipped with reason `already_confirmed` without contacting the provider;
and the second call attempts external event creation exactly for the
accepted blocks that did not previously succeed. -/
theorem C2_confirm_idempotent (ext1 ext2 : Nat → Option Nat)
    (accept : List Nat) (bs : List PlannedBlock)
    (hprop : ∀ b ∈ bs, b.state = BState.proposed)
    (b : PlannedBlock) (hb : b ∈ bs) :
    confirmBlock ext1 accept b ∈ confirmCall ext1 accept bs ∧
    createdCount (confirmBlock ext1 accept b).2.1 +
      createdCount
        (confirmBlock ext2 accept (confirmBlock ext1 accept b).1).2.1 ≤ 1 ∧
    ((confirmBlock ext1 accept b).1.state = BState.confirmed →
      (confirmBlock ext2 accept (confirmBlock ext1 accept b).1).2.1 =
        CEntry.skippedE b.blockId "already_confirmed" ∧
      (confirmBlock ext2 accept (confirmBlock ext1 accept b).1).2.2 = false) ∧
    ((confirmBlock ext2 accept (confirmBlock ext1 accept b).1).2.2 = true ↔
      (confirmBlock ext1 accept b).1.state ≠ BState.confirmed ∧
        b.blockId ∈ accept) := by
  have hbstate := hprop b hb
  refine ⟨List.mem_map_of_mem _ hb, ?_⟩
  by_cases hacc : b.blockId ∈ accept
  · cases hext1 : ext1 b.blockId with
    | some e =>
      have h1 : confirmBlock ext1 accept b =
          ({ b with state := BState.confirmed, eventId := some e },
            CEntry.created b.blockId e, true) := by
        simp [confirmBlock, hbstate, hacc, hext1]
      have h2 : confirmBlock ext2 accept
          ({ b with state := BState.confirmed, eventId := some e }) =
          ({ b with state := BState.confirmed, eventId := some e },
            CEntry.skippedE b.blockId "already_confirmed", false) := by
        simp [confirmBlock]
      rw [h1]
      simp only [h2, createdCount]
      refine ⟨by omega, fun _ => ⟨by trivial, by trivial⟩, ?_⟩
      constructor
      · intro hfalse; exact absurd hfalse (by decide)
      · rintro ⟨hne, _⟩; exact absurd rfl hne
    | none =>
      have h1 : confirmBlock ext1 accept b =
          (b, CEntry.skippedE b.blockId "calendar_error", true) := by
        simp [confirmBlock, hbstate, hacc, hext1]
      rw [h1]
      simp only
      cases hext2 : ext2 b.blockId with
      | some e2 =>
        have h2 : confirmBlock ext2 accept b =
            ({ b with state := BState.confirmed, eventId := some e2 },
              CEntry.created b.blockId e2, true) := by
          simp [confirmBlock, hbstate, hacc, hext2]
        rw [h2]
        simp only [createdCount]
        refine ⟨by omega, fun hc => ?_, ?_⟩
        · rw [hbstate] at hc; exact absurd hc (by decide)
        · simp [hbstate, hacc]
      | none =>
        have h2 : confirmBlock ext2 accept b =
            (b, CEntry.skippedE b.blockId "calendar_error", true) := by
          simp [confirmBlock, hbstate, hacc, hext2]
        rw [h2]
        simp only [createdCount]
        refine ⟨by omega, fun hc => ?_, ?_⟩
        · rw [hbstate] at hc; exact absurd hc (by decide)
        · simp [hbstate, hacc]
  · have h1 : confirmBlock ext1 accept b =
        ({ b with state := BState.skippedSt },
          CEntry.skippedE b.blockId "not_accepted", false) := by
      simp [confirmBlock, hbstate, hacc]
    have h2 : confirmBlock ext2 accept ({ b with state := BState.skippedSt }) =
        ({ b with state := BState.skippedSt, eventId := b.eventId },
          CEntry.skippedE b.blockId "not_accepted", false) := by
      simp [confirmBlock, hacc]
    rw [h1]
    simp only [h2, createdCount]
    refine ⟨by omega, fun hc => ?_, ?_⟩
    · exact absurd hc (by decide)
    · simp [hacc]

/-- C2 witness: the theorem at a one-block proposal where the first call's
event creation fails and the second call's succeeds. -/
theorem C2_confirm_idempotent_witness :
    confirmBlock (fun _ => none) [1]
        { blockId := 1, taskId := 1, ivl := ⟨540, 600⟩,
          state := BState.proposed, eventId := none } ∈
      confirmCall (fun _ => none) [1]
        [{ blockId := 1, taskId := 1, ivl := ⟨540, 600⟩,
           state := BState.proposed, eventId := none }] ∧
    createdCount (confirmBlock (fun _ => none) [1]
        { blockId := 1, taskId := 1, ivl := ⟨540, 600⟩,
          state := BState.proposed, eventId := none }).2.1 +
      createdCount (confirmBlock (fun _ => some 7) [1]
        (confirmBlock (fun _ => none) [1]
          { blockId := 1, taskId := 1, ivl := ⟨540, 600⟩,
            state := BState.proposed, eventId := none }).1).2.1 ≤ 1 ∧
    ((confirmBlock (fun _ => none) [1]
        { blockId := 1, taskId := 1, ivl := ⟨540, 600⟩,
          state := BState.proposed, eventId := none }).1.state =
        BState.confirmed →
      (confirmBlock (fun _ => some 7) [1]
        (confirmBlock (fun _ => none) [1]
          { blockId := 1, taskId := 1, ivl := ⟨540, 600⟩,
            state := BState.proposed, eventId := none }).1).2.1 =
        CEntry.skippedE 1 "already_confirmed" ∧
      (confirmBlock (fun _ => some 7) [1]
        (confirmBlock (fun _ => none) [1]
          { blockId := 1, taskId := 1, ivl := ⟨540, 600⟩,
            state := BState.proposed, eventId := none }).1).2.2 = false) ∧
    ((confirmBlock (fun _ => some 7) [1]
        (confirmBlock (fun _ => none) [1]
          { blockId := 1, taskId := 1, ivl := ⟨540, 600⟩,
            state := BState.proposed, eventId := none }).1).2.2 = true ↔
      (confirmBlock (fun _ => none) [1]
        { blockId := 1, taskId := 1, ivl := ⟨540, 600⟩,
          state := BState.proposed, eventId := none }).1.state ≠
          BState.confirmed ∧ (1 : Nat) ∈ [(1 : Nat)]) :=
  C2_confirm_idempotent (fun _ => none) (fun _ => some 7) [1]
    [{ blockId := 1, taskId := 1, ivl := ⟨540, 600⟩,
       state := BState.proposed, eventId := none }]
    (by intro b hb; rcases List.mem_singleton.mp hb with rfl; rfl)
    { blockId := 1, taskId := 1, ivl := ⟨540, 600⟩,
      state := BState.proposed, eventId := none }
    (List.mem_singleton.mpr rfl)

/-- C4: a task-creation or task-update request whose `est_minutes` is a
number ≤ 0 is rejected with the validation error
`est_minutes must be greater than 0` (the error is thrown before the insert
or update, so no task row is written or modified); a numeric `est_minutes`
strictly greater than 0 is not rejected by this guard. -/
theorem C4_est_minutes_validation (d : CreateTaskData) (u : UpdateTaskData)
    (n : Int) (hd : d.est_minutes = JSNum.num n)
    (hu : u.est_minutes = JSNum.num n)
    (htitle : d.title ≠ "") (huser : d.user_id ≠ "") :
    (n ≤ 0 →
      createTask d = Except.error "est_minutes must be greater than 0" ∧
      updateTask u = Except.error "est_minutes must be greater than 0") ∧
    (0 < n →
      estGuardCreate d.est_minutes = false ∧
      estGuardUpdate u.est_minutes = false) := by
  constructor
  · intro hle
    constructor
    · have hguard : estGuardCreate d.est_minutes = true := by
        simp [estGuardCreate, hd, jsLeZero, hle]
      simp [createTask, htitle, huser, hguard]
    · have hguard : estGuardUpdate u.est_minutes = true := by
        simp [estGuardUpdate, hu, jsLeZero, hle]
      simp [updateTask, hguard]
  · intro hpos
    constructor
    · simp [estGuardCreate, hd, jsLeZero]
      omega
    · simp [estGuardUpdate, hu, jsLeZero]
      omega

/-- C4 witness: the theorem at a concrete request with `est_minutes = -30`. -/
theorem C4_est_minutes_validation_witness :
    ((-30 : Int) ≤ 0 →
      createTask
          { title := "Essay", user_id := "u1", notes := none,
            priority := some "high", due_date := none,
            est_minutes := JSNum.num (-30), status := none } =
        Except.error "est_minutes must be greater than 0" ∧
      updateTask
          { priority := none, est_minutes := JSNum.num (-30),
            status := none } =
        Except.error "est_minutes must be greater than 0") ∧
    ((0 : Int) < -30 →
      estGuardCreate (JSNum.num (-30)) = false ∧
      estGuardUpdate (JSNum.num (-30)) = false) :=
  C4_est_minutes_validation
    { title := "Essay", user_id := "u1", notes := none,
      priority := some "high", due_date := none,
      est_minutes := JSNum.num (-30), status := none }
    { priority := none, est_minutes := JSNum.num (-30), status := none }
    (-30) rfl rfl (by decide) (by decide)

/-- C5: deleting a task cascade-deletes everything attached to it: a
calendar delete is attempted for every block of the task that carries a
google event id, all the task's blocks and execution sessions are removed
from storage, and the task row itself is deleted last. -/
theorem C5_delete_cascade (st : Store) (tid : String) :
    (∀ b ∈ st.task_blocks, b.task_id = tid → b.google_event_id ≠ "" →
      DelOp.calendarDelete b.google_event_id ∈ (deleteTaskCascade st tid).1) ∧
    (∀ b ∈ (deleteTaskCascade st tid).2.task_blocks, b.task_id ≠ tid) ∧
    (∀ s ∈ (deleteTaskCascade st tid).2.task_sessions, s.task_id ≠ tid) ∧
    tid ∉ (deleteTaskCascade st tid).2.tasks ∧
    (deleteTaskCascade st tid).1.getLast? =
      some (DelOp.deleteTaskRow tid) := by
  refine ⟨?_, ?_, ?_, ?_, ?_⟩
  · intro b hb htask hev
    simp only [deleteTaskCascade, List.mem_append]
    left
    refine List.mem_map_of_mem _ ?_
    refine List.mem_filter.mpr ⟨List.mem_filter.mpr ⟨hb, ?_⟩, ?_⟩
    · simp [htask]
    · simp [hev]
  · intro b hb
    simp only [deleteTaskCascade, List.mem_filter] at hb
    simpa using hb.2
  · intro s hs
    simp only [deleteTaskCascade, List.mem_filter] at hs
    simpa using hs.2
  · intro hmem
    simp only [deleteTaskCascade, List.mem_filter] at hmem
    simp at hmem
  · simp only [deleteTaskCascade]
    rw [List.getLast?_append]
    rfl

/-- C5 witness: the theorem at a store holding one block with an event id,
one session and the task row. -/
theorem C5_delete_cascade_witness :
    (∀ b ∈ store5.task_blocks, b.task_id = "t1" → b.google_event_id ≠ "" →
      DelOp.calendarDelete b.google_event_id ∈
        (deleteTaskCascade store5 "t1").1) ∧
    (∀ b ∈ (deleteTaskCascade store5 "t1").2.task_blocks, b.task_id ≠ "t1") ∧
    (∀ s ∈ (deleteTaskCascade store5 "t1").2.task_sessions,
      s.task_id ≠ "t1") ∧
    "t1" ∉ (deleteTaskCascade store5 "t1").2.tasks ∧
    (deleteTaskCascade store5 "t1").1.getLast? =
      some (DelOp.deleteTaskRow "t1") :=
  C5_delete_cascade store5 "t1"

/-- C7: `start(userId, taskId)` fails with `AlreadyTracking` when the task
already has an active (end-time-null) session for that user, opening no new
session; when no active session exists it opens a new session with
start = now and sets the task status to `in_progress` (modelled from the
spec). -/
theorem C7_exec_start (userId taskId : String) (now : Int) (st : ExecState) :
    (st.sessions.any (isActiveFor userId taskId) = true →
      execStart userId taskId now st = Except.error ExecErr.AlreadyTracking) ∧
    (st.sessions.any (isActiveFor userId taskId) = false →
      ∃ st2, execStart userId taskId now st = Except.ok st2 ∧
        st2.sessions = ⟨userId, taskId, now, none⟩ :: st.sessions ∧
        ∀ p ∈ st2.tasks, p.1 = taskId → p.2 = TStatus.inProgress) := by
  constructor
  · intro hact
    simp [execStart, hact]
  · intro hnone
    have hstep : execStart userId taskId now st = Except.ok
        { sessions := ⟨userId, taskId, now, none⟩ :: st.sessions,
          tasks := st.tasks.map
            (fun p => if p.1 == taskId then (p.1, TStatus.inProgress)
              else p) } := by
      simp [execStart, hnone]
    refine ⟨_, hstep, rfl, ?_⟩
    intro p hp hpt
    simp only [List.mem_map] at hp
    rcases hp with ⟨q, _, rfl⟩
    by_cases hq : q.1 == taskId
    · simp [hq]
    · rw [if_neg (by simpa using hq)] at hpt ⊢
      exact absurd hpt (by simpa using hq)

/-- C7 witness: the theorem at a state with one active session on the task
(`start` after `start` fails with `AlreadyTracking`). -/
theorem C7_exec_start_witness :
    exState7.sessions.any (isActiveFor "u1" "t1") = true ∧
    execStart "u1" "t1" 200 exState7 =
      Except.error ExecErr.AlreadyTracking :=
  ⟨by decide, (C7_exec_start "u1" "t1" 200 exState7).1 (by decide)⟩

/-- C8: a row is in the table after `fetchCalendarEvents` exactly when it is
an old row with an empty google_event_id (the delete step removes every row
whose google_event_id is non-empty, with no per-user filter) or a row built
from one of the calling user's fetched events — so a fetch by one user
replaces the stored mirror regardless of which user's fetches produced the
previous rows. -/
theorem C8_fetch_replaces_mirror (eventsOf : String → List GEvent)
    (userId : String) (table : List CalRow) (r : CalRow) :
    r ∈ (fetchCalendarEvents eventsOf userId table).2 ↔
      (r ∈ table ∧ r.google_event_id = "") ∨
      ∃ ev ∈ eventsOf userId, eventRow ev = some r := by
  simp only [fetchCalendarEvents, syncEventsToDatabase, List.mem_append,
    List.mem_filter, List.mem_filterMap]
  constructor
  · rintro (⟨hmem, hid⟩ | ⟨ev, hev, hrow⟩)
    · left
      refine ⟨hmem, ?_⟩
      simpa using hid
    · exact Or.inr ⟨ev, hev, hrow⟩
  · rintro (⟨hmem, hid⟩ | ⟨ev, hev, hrow⟩)
    · left
      refine ⟨hmem, ?_⟩
      simpa using hid
    · exact Or.inr ⟨ev, hev, hrow⟩

/-- C9: `deleteEvent` succeeds (returning `{deleted := true}`, with every
row matching the event id removed and all others kept) both for an OK
provider status and for 404; it raises an error — leaving the table
untouched, since the throw precedes the local delete — exactly for the
remaining statuses. -/
theorem C9_delete_event_404_tolerant (status : Nat) (eid : String)
    (table : List CalRow) :
    ((resOk status = true ∨ status = 404) →
      ∃ t2, deleteEvent status eid table =
          Except.ok ({ deleted := true, googleEventId := eid }, t2) ∧
        ∀ r, r ∈ t2 ↔ r ∈ table ∧ r.google_event_id ≠ eid) ∧
    (resOk status = false → status ≠ 404 →
      deleteEvent status eid table = Except.error "Failed to delete event") := by
  constructor
  · intro hok
    refine ⟨table.filter (fun r => r.google_event_id != eid), ?_, ?_⟩
    · have hcond : ¬ (¬ resOk status ∧ status ≠ 404) := by
        rcases hok with h | h
        · intro hc; exact hc.1 (by simp [h])
        · intro hc; exact hc.2 h
      simp only [deleteEvent]
      rw [if_neg hcond]
    · intro r
      simp [List.mem_filter]
  · intro hnot h404
    have hcond : ¬ resOk status ∧ status ≠ 404 := ⟨by simp [hnot], h404⟩
    simp [deleteEvent, hcond]

/-- C9 witness: the theorem at provider status 404 — the event is already
gone, yet the call reports success and removes the mirror row. -/
theorem C9_delete_event_404_tolerant_witness :
    (resOk 404 = true ∨ 404 = 404) ∧
    ∃ t2, deleteEvent 404 "ev1"
          [{ google_event_id := "ev1", start_ts := "s", end_ts := "e",
             summary := none, is_all_day := false }] =
        Except.ok ({ deleted := true, googleEventId := "ev1" }, t2) ∧
      ∀ r, r ∈ t2 ↔
        r ∈ [({ google_event_id := "ev1", start_ts := "s", end_ts := "e",
                summary := none, is_all_day := false } : CalRow)] ∧
          r.google_event_id ≠ "ev1" :=
  ⟨Or.inr rfl,
    (C9_delete_event_404_tolerant 404 "ev1"
      [{ google_event_id := "ev1", start_ts := "s", end_ts := "e",
         summary := none, is_all_day := false }]).1 (Or.inr rfl)⟩

/-- C10: `createTask` accepts `est_minutes = null` (its guard ends with
`est !== null`, and the stored value `est || null` is `null`), while
`updateTask` with `est_minutes` explicitly `null` throws
`est_minutes must be greater than 0`, because its guard checks only
`!== undefined && <= 0` and JavaScript evaluates `null <= 0` as true —
the two operations disagree on the same null input. -/
theorem C10_null_est_disagreement (d : CreateTaskData) (u : UpdateTaskData)
    (hd : d.est_minutes = JSNum.null) (hu : u.est_minutes = JSNum.null)
    (htitle : d.title ≠ "") (huser : d.user_id ≠ "")
    (hp : jsT d.priority = true → jsOrStr d.priority "" ∈ ["low", "med", "high"])
    (hs : jsT d.status = true →
      jsOrStr d.status "" ∈ ["todo", "in_progress", "done"]) :
    (∃ row, createTask d = Except.ok row ∧ row.est_minutes = JSNum.null) ∧
    updateTask u = Except.error "est_minutes must be greater than 0" := by
  constructor
  · have hguard : estGuardCreate d.est_minutes = false := by
      simp [estGuardCreate, hd]
    have hpc : ¬ (jsT d.priority = true ∧ ¬ jsOrStr d.priority "" = "low" ∧
        ¬ jsOrStr d.priority "" = "med" ∧ ¬ jsOrStr d.priority "" = "high") := by
      rintro ⟨h1, h2, h3, h4⟩
      have hmem := hp h1
      simp only [List.mem_cons, List.not_mem_nil, or_false] at hmem
      tauto
    have hsc : ¬ (jsT d.status = true ∧ ¬ jsOrStr d.status "" = "todo" ∧
        ¬ jsOrStr d.status "" = "in_progress" ∧
        ¬ jsOrStr d.status "" = "done") := by
      rintro ⟨h1, h2, h3, h4⟩
      have hmem := hs h1
      simp only [List.mem_cons, List.not_mem_nil, or_false] at hmem
      tauto
    refine ⟨⟨d.title, d.user_id, if jsT d.notes then d.notes else none,
      jsOrStr d.priority "med", if jsT d.due_date then d.due_date else none,
      jsOrNull d.est_minutes, jsOrStr d.status "todo", 0, 0⟩, ?_, ?_⟩
    · simp [createTask, htitle, huser, hguard, hpc, hsc]
    · simp [jsOrNull, hd]
  · have hguard : estGuardUpdate u.est_minutes = true := by
      simp [estGuardUpdate, hu, jsLeZero]
    simp [updateTask, hguard]

/-- C10 witness: the theorem at concrete create/update requests with
`est_minutes = null`. -/
theorem C10_null_est_disagreement_witness :
    (∃ row, createTask
        { title := "Essay", user_id := "u1", notes := none,
          priority := none, due_date := none,
          est_minutes := JSNum.null, status := none } =
      Except.ok row ∧ row.est_minutes = JSNum.null) ∧
    updateTask
        { priority := none, est_minutes := JSNum.null, status := none } =
      Except.error "est_minutes must be greater than 0" :=
  C10_null_est_disagreement
    { title := "Essay", user_id := "u1", notes := none,
      priority := none, due_date := none,
      est_minutes := JSNum.null, status := none }
    { priority := none, est_minutes := JSNum.null, status := none }
    rfl rfl (by decide) (by decide) (by decide) (by decide)
